import Mathlib

/-!
Verification of the order-amount computation engine of the predict-sdk
repository (`src/OrderBuilder.ts`, `src/Constants.ts`, `src/Errors.ts`).

Modelling conventions:
* TypeScript `bigint` arithmetic on the non-negative wei domain is embedded as
  `Nat`; `bigint` division truncates, which on non-negative operands is `Nat`
  floor division.  The one function that is specified over all (also negative)
  big integers, `retainSignificantDigits`, is embedded over `Int`.
* A `DepthLevel` in the source is a pair of JavaScript numbers that is
  converted to wei inside the walkers via `parseEther(x.toString())`;
  the embedding performs that scaling at the boundary and works directly on
  the wei integers, so a source level `(0.5, 3)` is the embedded level
  `(5 * 10 ^ 17, 3 * 10 ^ 18)`.
* Functions that `throw` are embedded in `Except OrderError`.
* `console.warn` advisories are pure data: `buildOrder` returns the list of
  advisories it would emit next to the built order.
* Clock reads (`Date.now()`) are passed in explicitly (`nowMs`).
-/

namespace PredictSdk

/-- `MAX_SALT` from `src/Constants.ts`: `2_147_483_648`. -/
def MAX_SALT : Nat := 2147483648

/-- `FIVE_MINUTES_SECONDS` from `src/Constants.ts`: `60 * 5`. -/
def FIVE_MINUTES_SECONDS : Nat := 60 * 5

/-- `Side` enum from `src/Constants.ts` (`BUY = 0`, `SELL = 1`). -/
inductive Side where
  | BUY
  | SELL
deriving DecidableEq, Repr

/-- `SignatureType` enum from `src/Constants.ts`. -/
inductive SignatureType where
  | EOA
  | POLY_PROXY
  | POLY_GNOSIS_SAFE
deriving DecidableEq, Repr

/-- Error taxonomy of `src/Errors.ts` restricted to the errors the claims
mention (each corresponds to one `Error` subclass thrown by the embedded
functions). -/
inductive OrderError where
  | invalidQuantity
  | invalidExpiration
  | makerSignerMismatch
  | missingSigner
deriving DecidableEq, Repr

/-- Addresses are opaque strings in the source (`Address`/`string`). -/
abbrev Address := String

/-- `ZeroAddress` from ethers, the default public taker. -/
def ZeroAddress : Address := "0x0000000000000000000000000000000000000000"

/-- One order-book tier `(priceWei, qtyWei)`; the `parseEther` scaling of the
source's `DepthLevel = [number, number]` is applied at the boundary. -/
abbrev DepthLevel := Nat × Nat

/-- The order-book snapshot (`Book` in `src/Types.ts`); only the depth arrays
take part in the amount computations (`updateTimestampMs` merely drives a
non-fatal staleness advisory and `marketId` is metadata). -/
structure Book where
  asks : List DepthLevel
  bids : List DepthLevel
deriving DecidableEq, Repr

/-- `ProcessedBookAmounts` from `src/Types.ts`. -/
structure ProcessedBookAmounts where
  quantityWei : Nat
  priceWei : Nat
  lastPriceWei : Nat
deriving DecidableEq, Repr

/-- `OrderAmounts` as returned by the calculators in `src/OrderBuilder.ts`
(`pricePerShare`, `makerAmount`, `takerAmount`, `lastPrice`). -/
structure OrderAmounts where
  pricePerShare : Nat
  makerAmount : Nat
  takerAmount : Nat
  lastPrice : Nat
deriving DecidableEq, Repr

/-- Fuel-driven decimal-digit counter: `decDigitsFuel fuel n` is the number of
decimal digits of `n` provided `n ≤ fuel` (`0` has zero digits).  The fuel
makes the recursion structural so that the kernel can evaluate it. -/
def decDigitsFuel : Nat → Nat → Nat
  | 0, _ => 0
  | fuel + 1, n => if n = 0 then 0 else decDigitsFuel fuel (n / 10) + 1

/-- Number of decimal digits of `n` (with `decDigits 0 = 0`). -/
def decDigits (n : Nat) : Nat := decDigitsFuel n n

/-- Modelled from the spec: the non-negative core of `retainSignificantDigits`
from `src/internal/Utils.ts`, whose implementation is absent from the
snapshot (only its tests and call sites are present).  Following §4.1 of the
spec it truncates (never rounds) `v` so that the retained numeric content fits
within `digits` significant decimal digits, by zeroing out the low-order
decimal digits that exceed that budget, and maps `0` to `0`. -/
def retainSigNat (v : Nat) (digits : Nat) : Nat :=
  if v = 0 then 0
  else
    let n := decDigits v
    if n ≤ digits then v
    else
      let k := n - digits
      v / 10 ^ k * 10 ^ k

/-- Modelled from the spec: `retainSignificantDigits(value, digits)` from the
missing `src/internal/Utils.ts`, total over all big integers; the sign is
preserved and a negative input truncates symmetrically (spec §4.1 and the
`tests/Utils.test.ts` vectors). -/
def retainSignificantDigits (v : Int) (digits : Nat) : Int :=
  if v < 0 then -(retainSigNat v.natAbs digits : Int) else (retainSigNat v.natAbs digits : Int)

/-- The fold step of `processBook` (`src/OrderBuilder.ts`, `depths.reduce`):
skip once the accumulated fill reaches the target, otherwise consume the
needed fraction of the level (partial fill) or the whole level.  On `Nat`,
`remainingQtyWei <= 0n` is exactly `quantityWei ≤ acc.quantityWei`. -/
def processBookStep (precision quantityWei : Nat) (acc : ProcessedBookAmounts)
    (lvl : DepthLevel) : ProcessedBookAmounts :=
  let priceWei := lvl.1
  let qtyWei := lvl.2
  if quantityWei ≤ acc.quantityWei then acc
  else
    let remainingQtyWei := quantityWei - acc.quantityWei
    if remainingQtyWei < qtyWei then
      { quantityWei := acc.quantityWei + remainingQtyWei
        priceWei := acc.priceWei + priceWei * remainingQtyWei / precision
        lastPriceWei := priceWei }
    else
      { quantityWei := acc.quantityWei + qtyWei
        priceWei := acc.priceWei + priceWei * qtyWei / precision
        lastPriceWei := priceWei }

/-- `processBook(depths, quantityWei)` from `src/OrderBuilder.ts`: a left fold
of `processBookStep` starting from `{quantityWei: 0n, priceWei: 0n,
lastPriceWei: 0n}`. -/
def processBook (precision : Nat) (depths : List DepthLevel) (quantityWei : Nat) :
    ProcessedBookAmounts :=
  depths.foldl (processBookStep precision quantityWei) ⟨0, 0, 0⟩

/-- `getMarketOrderAmountsByQuantity` from `src/OrderBuilder.ts`: truncate the
quantity to 5 significant digits, reject dust below `1e16`, then walk asks
(BUY) or bids (SELL), guarding the average-price division against a zero
fill. -/
def getMarketOrderAmountsByQuantity (precision : Nat) (side : Side) (quantityWei : Nat)
    (book : Book) : Except OrderError OrderAmounts :=
  let qty := retainSigNat quantityWei 5
  if qty < 10 ^ 16 then .error .invalidQuantity
  else
    match side with
    | .BUY =>
      let r := processBook precision book.asks qty
      .ok { pricePerShare := if 0 < r.quantityWei then r.priceWei * precision / r.quantityWei else 0
            makerAmount := r.lastPriceWei * r.quantityWei / precision
            takerAmount := r.quantityWei
            lastPrice := r.lastPriceWei }
    | .SELL =>
      let r := processBook precision book.bids qty
      .ok { pricePerShare := if 0 < r.quantityWei then r.priceWei * precision / r.quantityWei else 0
            makerAmount := r.quantityWei
            takerAmount := r.lastPriceWei * r.quantityWei / precision
            lastPrice := r.lastPriceWei }

/-- Accumulator of the value walk in `getMarketOrderAmountsByValue`. -/
structure ValueAcc where
  numberOfShares : Nat
  totalPrice : Nat
deriving DecidableEq, Repr

/-- The fold step of the value walk in `getMarketOrderAmountsByValue`
(`asks.reduce`): consume a full tier when its total cost fits the remaining
budget, otherwise consume `remainingSpend * precision / priceWei` fractional
shares (guarded against a zero price).  On `Nat`, `remainingSpend <= 0n` is
exactly `currencyAmountWei ≤ acc.totalPrice`. -/
def valueWalkStep (precision currencyAmountWei : Nat) (acc : ValueAcc)
    (lvl : DepthLevel) : ValueAcc :=
  let priceWei := lvl.1
  let qtyWei := lvl.2
  if currencyAmountWei ≤ acc.totalPrice then acc
  else
    let remainingSpend := currencyAmountWei - acc.totalPrice
    let tierTotalPrice := priceWei * qtyWei / precision
    if tierTotalPrice ≤ remainingSpend then
      { numberOfShares := acc.numberOfShares + qtyWei
        totalPrice := acc.totalPrice + priceWei * qtyWei / precision }
    else
      let fractionalShareAmount := if 0 < priceWei then remainingSpend * precision / priceWei else 0
      { numberOfShares := acc.numberOfShares + fractionalShareAmount
        totalPrice := acc.totalPrice + priceWei * fractionalShareAmount / precision }

/-- The full value walk of `getMarketOrderAmountsByValue`. -/
def valueWalk (precision valueWei : Nat) (asks : List DepthLevel) : ValueAcc :=
  asks.foldl (valueWalkStep precision valueWei) ⟨0, 0⟩

/-- `getMarketOrderAmountsByValue` from `src/OrderBuilder.ts` (BUY by currency
value): reject values below `1e18`, walk the asks by budget, truncate the
accumulated share count to 5 significant digits and feed it back through the
by-quantity path; the final amounts keep that path's `pricePerShare` and
`lastPrice` but use `roundedShares` as `takerAmount` and
`lastPrice * roundedShares / precision` as `makerAmount`. -/
def getMarketOrderAmountsByValue (precision valueWei : Nat) (book : Book) :
    Except OrderError OrderAmounts :=
  if valueWei < 10 ^ 18 then .error .invalidQuantity
  else
    let r := valueWalk precision valueWei book.asks
    let roundedShares := retainSigNat r.numberOfShares 5
    (getMarketOrderAmountsByQuantity precision .BUY roundedShares book).map fun amounts =>
      { pricePerShare := amounts.pricePerShare
        makerAmount := amounts.lastPrice * roundedShares / precision
        takerAmount := roundedShares
        lastPrice := amounts.lastPrice }

/-- The input union `MarketHelperInput | MarketHelperValueInput` of
`getMarketOrderAmounts`; the value variant carries no side because
`MarketHelperValueInput` fixes `side` to `BUY` (spec §4.3: value-based market
orders are BUY only). -/
inductive MarketHelper where
  | byQuantity (side : Side) (quantityWei : Nat)
  | byValue (valueWei : Nat)
deriving DecidableEq, Repr

/-- `getMarketOrderAmounts` from `src/OrderBuilder.ts`: dispatch the value
variant (BUY with `valueWei`) to the by-value path, everything else to the
by-quantity path. -/
def getMarketOrderAmounts (precision : Nat) (data : MarketHelper) (book : Book) :
    Except OrderError OrderAmounts :=
  match data with
  | .byValue valueWei => getMarketOrderAmountsByValue precision valueWei book
  | .byQuantity side quantityWei => getMarketOrderAmountsByQuantity precision side quantityWei book

/-- `getLimitOrderAmounts` from `src/OrderBuilder.ts`: reject dust below
`1e16`, truncate the price to 3 and the quantity to 5 significant digits, and
produce the side-dependent maker/taker amounts. -/
def getLimitOrderAmounts (precision : Nat) (side : Side) (pricePerShareWei quantityWei : Nat) :
    Except OrderError OrderAmounts :=
  if quantityWei < 10 ^ 16 then .error .invalidQuantity
  else
    let price := retainSigNat pricePerShareWei 3
    let qty := retainSigNat quantityWei 5
    match side with
    | .BUY =>
      .ok { pricePerShare := price
            makerAmount := price * qty / precision
            takerAmount := qty
            lastPrice := price }
    | .SELL =>
      .ok { pricePerShare := price
            makerAmount := qty
            takerAmount := price * qty / precision
            lastPrice := price }

/-- Advisories emitted through `console.warn` by `buildOrder`; they are
returned as data next to the built order (non-fatal by construction). -/
inductive Advisory where
  | predictAccountOverride
  | marketExpirationIgnored
deriving DecidableEq, Repr

/-- `OrderStrategy` from `src/Types.ts` (`"MARKET" | "LIMIT"`). -/
inductive OrderStrategy where
  | MARKET
  | LIMIT
deriving DecidableEq, Repr

/-- `new Date("2100-01-01T00:00:00Z").getTime()`, the far-future fallback used
by `buildOrder` for LIMIT orders without an expiration. -/
def FALLBACK_EXPIRES_AT_MS : Nat := 4102444800000

/-- `BuildOrderInput` from `src/Types.ts`; `expiresAt` is the date's epoch
value in milliseconds, numeric fields are the wei integers that the source
serializes with `String(...)`. -/
structure BuildOrderInput where
  side : Side
  signer : Option Address
  maker : Option Address
  taker : Option Address
  tokenId : Nat
  makerAmount : Nat
  takerAmount : Nat
  feeRateBps : Nat
  nonce : Option Nat
  salt : Option Nat
  signatureType : Option SignatureType
  expiresAt : Option Nat
deriving DecidableEq, Repr

/-- The canonical `Order` record from `src/Types.ts`; the decimal-string wire
serialization `String(x)` of each numeric field is modelled by the numeric
value itself (the serialization is injective). -/
structure Order where
  salt : Nat
  maker : Address
  signer : Address
  taker : Address
  tokenId : Nat
  makerAmount : Nat
  takerAmount : Nat
  expiration : Nat
  nonce : Nat
  feeRateBps : Nat
  side : Side
  signatureType : SignatureType
deriving DecidableEq, Repr

/-- The `OrderBuilder` state that `buildOrder` reads: the optional abstracted
(`predictAccount`) address, the signing wallet's address (`this.signer!.address`)
and the salt the injected generator would produce for this call. -/
structure BuilderEnv where
  predictAccount : Option Address
  signerAddress : Address
  generatedSalt : Nat
deriving DecidableEq, Repr

/-- `buildOrder(strategy, data)` from `src/OrderBuilder.ts`.  `nowMs` stands
for `Date.now()` at assembly time.  The checks appear in source order: the
predict-account advisory, the market-expiration advisory, the LIMIT
expiration check (`expiresAt.getTime() <= Date.now()` throws
`InvalidExpirationError`), then the maker/signer consistency check
(`data.maker` supplied and different from the resolved signer throws
`MakerSignerMismatchError`), and finally the order record with its defaults. -/
def buildOrder (env : BuilderEnv) (nowMs : Nat) (strategy : OrderStrategy)
    (data : BuildOrderInput) : Except OrderError (Order × List Advisory) :=
  let expiresAtMs := data.expiresAt.getD FALLBACK_EXPIRES_AT_MS
  let limitExpiration := expiresAtMs / 1000
  let marketExpiration := nowMs / 1000 + FIVE_MINUTES_SECONDS
  let advisories :=
    (if env.predictAccount.isSome ∧ (data.maker.isSome ∨ data.signer.isSome) then
      [Advisory.predictAccountOverride] else []) ++
    (if strategy = .MARKET ∧ data.expiresAt.isSome then
      [Advisory.marketExpirationIgnored] else [])
  if strategy ≠ .MARKET ∧ expiresAtMs ≤ nowMs then .error .invalidExpiration
  else
    let signer := data.signer.getD env.signerAddress
    if data.maker.isSome ∧ data.maker ≠ some signer then .error .makerSignerMismatch
    else
      .ok ({ salt := data.salt.getD env.generatedSalt
             maker := (env.predictAccount.getD (data.maker.getD signer))
             signer := env.predictAccount.getD signer
             taker := data.taker.getD ZeroAddress
             tokenId := data.tokenId
             makerAmount := data.makerAmount
             takerAmount := data.takerAmount
             expiration := if strategy = .MARKET then marketExpiration else limitExpiration
             nonce := data.nonce.getD 0
             feeRateBps := data.feeRateBps
             side := data.side
             signatureType := data.signatureType.getD .EOA }, advisories)

/-- `generateOrderSalt` from `src/OrderBuilder.ts`:
`String(Math.round(Math.random() * MAX_SALT))`.  The random binary64 value is
an exact rational `num / den` in `[0, 1)`; multiplying a binary64 by
`MAX_SALT = 2 ^ 31` (a power of two) is exact, and `Math.round` rounds half
toward positive infinity, so the produced integer is
`⌊num * MAX_SALT / den + 1 / 2⌋ = (2 * (num * MAX_SALT) + den) / (2 * den)`;
`String(...)` followed by parsing is the identity on naturals. -/
def generateOrderSalt (num den : Nat) : Nat :=
  (2 * (num * MAX_SALT) + den) / (2 * den)

/-- Spec-side description (claim C4): the quantity consumed from each
successive level, `min(level quantity, remaining unmet demand)`. -/
def consumedQtys (target : Nat) : List DepthLevel → List Nat
  | [] => []
  | (_, q) :: rest => min q target :: consumedQtys (target - min q target) rest

/-- Spec-side description (claim C4): the total cost, accumulating
`price * consumedQuantity / precision` per level. -/
def costSpec (precision target : Nat) : List DepthLevel → Nat
  | [] => 0
  | (p, q) :: rest => p * min q target / precision + costSpec precision (target - min q target) rest

/-- Spec-side description (claim C4, amended): the price of the last level
processed while unmet demand remained (`none` when no level was touched). -/
def lastTouchedPrice (target : Nat) : List DepthLevel → Option Nat
  | [] => none
  | (p, q) :: rest =>
    if target = 0 then none
    else some ((lastTouchedPrice (target - min q target) rest).getD p)

/-- Spec-side description (claim C2): the share count accumulated by the
value walk, written as a recursion on the remaining budget — a full tier when
its total cost fits the remaining budget, otherwise
`remainingBudget * precision / price` fractional shares. -/
def valueWalkSharesSpec (precision budget : Nat) : List DepthLevel → Nat
  | [] => 0
  | (p, q) :: rest =>
    if budget = 0 then 0
    else
      let tierTotalPrice := p * q / precision
      if tierTotalPrice ≤ budget then
        q + valueWalkSharesSpec precision (budget - tierTotalPrice) rest
      else
        let frac := if 0 < p then budget * precision / p else 0
        frac + valueWalkSharesSpec precision (budget - p * frac / precision) rest

deriving instance DecidableEq for Except

/-! ### Helper lemmas -/

theorem div_add_div_le (a b c : Nat) : a / c + b / c ≤ (a + b) / c := by
  rcases Nat.eq_zero_or_pos c with hc | hc
  · simp [hc]
  · rw [Nat.le_div_iff_mul_le hc, Nat.add_mul]
    exact Nat.add_le_add (Nat.div_mul_le_self a c) (Nat.div_mul_le_self b c)

theorem decDigitsFuel_zero (fuel : Nat) : decDigitsFuel fuel 0 = 0 := by
  cases fuel <;> simp [decDigitsFuel]

theorem decDigitsFuel_pos : ∀ fuel n, 1 ≤ n → n ≤ fuel → 1 ≤ decDigitsFuel fuel n := by
  intro fuel
  cases fuel with
  | zero => intro n h1 h2; omega
  | succ f =>
    intro n h1 h2
    simp only [decDigitsFuel, show ¬n = 0 by omega, if_false]
    omega

theorem pow_pred_decDigitsFuel_le : ∀ fuel n, 1 ≤ n → n ≤ fuel →
    10 ^ (decDigitsFuel fuel n - 1) ≤ n := by
  intro fuel
  induction fuel with
  | zero => intro n h1 h2; omega
  | succ f ih =>
    intro n h1 h2
    have hn : ¬n = 0 := by omega
    simp only [decDigitsFuel, hn, if_false]
    rcases Nat.lt_or_ge n 10 with h10 | h10
    · have hq : n / 10 = 0 := Nat.div_eq_of_lt h10
      rw [hq, decDigitsFuel_zero]
      simpa using h1
    · have hq1 : 1 ≤ n / 10 := (Nat.one_le_div_iff (by norm_num)).mpr h10
      have hlt : n / 10 < n := Nat.div_lt_self (by omega) (by norm_num)
      have hq2 : n / 10 ≤ f := by omega
      have hrec := ih (n / 10) hq1 hq2
      have hd1 : 1 ≤ decDigitsFuel f (n / 10) := decDigitsFuel_pos f (n / 10) hq1 hq2
      have hsplit : 10 ^ (decDigitsFuel f (n / 10) + 1 - 1)
          = 10 ^ (decDigitsFuel f (n / 10) - 1) * 10 := by
        rw [show decDigitsFuel f (n / 10) + 1 - 1 = (decDigitsFuel f (n / 10) - 1) + 1 by omega,
          pow_succ]
      rw [hsplit]
      calc 10 ^ (decDigitsFuel f (n / 10) - 1) * 10 ≤ n / 10 * 10 :=
            Nat.mul_le_mul_right 10 hrec
        _ ≤ n := Nat.div_mul_le_self n 10

theorem lt_pow_decDigitsFuel : ∀ fuel n, n ≤ fuel → n < 10 ^ decDigitsFuel fuel n := by
  intro fuel
  induction fuel with
  | zero =>
    intro n h
    have : n = 0 := by omega
    subst this
    simp [decDigitsFuel_zero]
  | succ f ih =>
    intro n h
    by_cases hn : n = 0
    · subst hn; simp [decDigitsFuel_zero]
    · simp only [decDigitsFuel, hn, if_false]
      have hlt : n / 10 < n := Nat.div_lt_self (by omega) (by norm_num)
      have hrec := ih (n / 10) (by omega)
      rw [pow_succ]
      have hmod := Nat.div_add_mod n 10
      have hm : n % 10 < 10 := Nat.mod_lt _ (by norm_num)
      set d := 10 ^ decDigitsFuel f (n / 10)
      omega

theorem decDigitsFuel_congr : ∀ f₁ f₂ n, n ≤ f₁ → n ≤ f₂ →
    decDigitsFuel f₁ n = decDigitsFuel f₂ n := by
  intro f₁
  induction f₁ with
  | zero =>
    intro f₂ n h1 h2
    have : n = 0 := by omega
    subst this
    rw [decDigitsFuel_zero, decDigitsFuel_zero]
  | succ f ih =>
    intro f₂ n h1 h2
    by_cases hn : n = 0
    · subst hn; rw [decDigitsFuel_zero, decDigitsFuel_zero]
    · cases f₂ with
      | zero => omega
      | succ g =>
        simp only [decDigitsFuel, hn, if_false]
        have hlt : n / 10 < n := Nat.div_lt_self (by omega) (by norm_num)
        rw [ih g (n / 10) (by omega) (by omega)]

theorem pow_pred_decDigits_le (n : Nat) (h : 1 ≤ n) : 10 ^ (decDigits n - 1) ≤ n :=
  pow_pred_decDigitsFuel_le n n h le_rfl

theorem lt_pow_decDigits (n : Nat) : n < 10 ^ decDigits n :=
  lt_pow_decDigitsFuel n n le_rfl

theorem decDigits_pos (n : Nat) (h : 1 ≤ n) : 1 ≤ decDigits n :=
  decDigitsFuel_pos n n h le_rfl

theorem decDigits_eq_of_bounds {w d : Nat} (hd : 1 ≤ d) (h1 : 10 ^ (d - 1) ≤ w)
    (h2 : w < 10 ^ d) : decDigits w = d := by
  have hw : 1 ≤ w := le_trans (Nat.one_le_pow _ _ (by norm_num)) h1
  have hub : decDigits w ≤ d := by
    by_contra hc
    push_neg at hc
    have hp := pow_pred_decDigits_le w hw
    have h3 : 10 ^ d ≤ 10 ^ (decDigits w - 1) :=
      Nat.pow_le_pow_right (by norm_num) (by omega)
    omega
  have hlb : d ≤ decDigits w := by
    have h4 := lt_pow_decDigits w
    have h5 : (10:Nat) ^ (d - 1) < 10 ^ decDigits w := lt_of_le_of_lt h1 h4
    have h6 : d - 1 < decDigits w :=
      (Nat.pow_lt_pow_iff_right (by norm_num : 1 < 10)).mp h5
    omega
  omega

theorem retainSigNat_le (v digits : Nat) : retainSigNat v digits ≤ v := by
  unfold retainSigNat
  split
  · omega
  · show (if decDigits v ≤ digits then v
      else v / 10 ^ (decDigits v - digits) * 10 ^ (decDigits v - digits)) ≤ v
    split
    · exact le_rfl
    · exact Nat.div_mul_le_self v _

theorem retainSigNat_pos {v digits : Nat} (hd : 1 ≤ digits) (hv : 1 ≤ v) :
    1 ≤ retainSigNat v digits := by
  unfold retainSigNat
  have hv0 : ¬v = 0 := by omega
  simp only [hv0, if_false]
  split
  · exact hv
  · rename_i h
    push_neg at h
    have hk : decDigits v - digits ≤ decDigits v - 1 := by omega
    have h10 : (10:Nat) ^ (decDigits v - digits) ≤ 10 ^ (decDigits v - 1) :=
      Nat.pow_le_pow_right (by norm_num) hk
    have hle : 10 ^ (decDigits v - digits) ≤ v :=
      le_trans h10 (pow_pred_decDigits_le v hv)
    have hpow : 0 < (10:Nat) ^ (decDigits v - digits) :=
      pow_pos (by norm_num) _
    have h1 : 1 ≤ v / 10 ^ (decDigits v - digits) := (Nat.one_le_div_iff hpow).mpr hle
    calc 1 = 1 * 1 := rfl
      _ ≤ v / 10 ^ (decDigits v - digits) * 10 ^ (decDigits v - digits) :=
          Nat.mul_le_mul h1 hpow

theorem retainSigNat_eq_zero_iff {v digits : Nat} (hd : 1 ≤ digits) :
    retainSigNat v digits = 0 ↔ v = 0 := by
  constructor
  · intro h
    by_contra hv
    have := retainSigNat_pos hd (show 1 ≤ v by omega)
    omega
  · intro h; subst h; simp [retainSigNat]

theorem retainSigNat_idem (v digits : Nat) (hd : 1 ≤ digits) :
    retainSigNat (retainSigNat v digits) digits = retainSigNat v digits := by
  by_cases hv : v = 0
  · subst hv; simp [retainSigNat]
  · by_cases hsmall : decDigits v ≤ digits
    · have hrw : retainSigNat v digits = v := by
        unfold retainSigNat
        simp [hv, hsmall]
      rw [hrw]
      exact hrw
    · push_neg at hsmall
      have hv1 : 1 ≤ v := by omega
      have hrw : retainSigNat v digits =
          v / 10 ^ (decDigits v - digits) * 10 ^ (decDigits v - digits) := by
        unfold retainSigNat
        simp [hv, show ¬decDigits v ≤ digits by omega]
      set k := decDigits v - digits with hkdef
      set w := v / 10 ^ k * 10 ^ k with hwdef
      have hk1 : k ≤ decDigits v - 1 := by omega
      have hkd : k + digits = decDigits v := by omega
      have hwle : w ≤ v := Nat.div_mul_le_self v _
      have hwlb : 10 ^ (decDigits v - 1) ≤ w := by
        have hd1 : 10 ^ (decDigits v - 1) ≤ v := pow_pred_decDigits_le v hv1
        have hdivle : 10 ^ (decDigits v - 1) / 10 ^ k ≤ v / 10 ^ k :=
          Nat.div_le_div_right hd1
        have hppow : (10:Nat) ^ (decDigits v - 1) / 10 ^ k = 10 ^ (decDigits v - 1 - k) :=
          Nat.pow_div (by omega) (by norm_num)
        have hstep : 10 ^ (decDigits v - 1 - k) * 10 ^ k ≤ w := by
          rw [hwdef]
          exact Nat.mul_le_mul_right _ (by rw [← hppow]; exact hdivle)
        calc (10:Nat) ^ (decDigits v - 1) = 10 ^ (decDigits v - 1 - k) * 10 ^ k := by
              rw [← pow_add]
              congr 1
              omega
          _ ≤ w := hstep
      have hwub : w < 10 ^ decDigits v := lt_of_le_of_lt hwle (lt_pow_decDigits v)
      have hdw : decDigits w = decDigits v :=
        decDigits_eq_of_bounds (by omega) hwlb hwub
      have hw0 : ¬w = 0 := by
        have : (0:Nat) < 10 ^ (decDigits v - 1) := pow_pos (by norm_num) _
        omega
      rw [hrw]
      unfold retainSigNat
      simp only [hw0, if_false, hdw, show ¬decDigits v ≤ digits by omega, if_false]
      have hcancel : w / 10 ^ k = v / 10 ^ k := by
        rw [hwdef]
        exact Nat.mul_div_cancel _ (pow_pos (by norm_num) _)
      rw [hcancel]

theorem consumedQtys_zero_sum : ∀ l : List DepthLevel, (consumedQtys 0 l).sum = 0 := by
  intro l
  induction l with
  | nil => simp [consumedQtys]
  | cons lvl rest ih =>
    obtain ⟨p, q⟩ := lvl
    simp [consumedQtys, ih]

theorem costSpec_zero (precision : Nat) : ∀ l : List DepthLevel, costSpec precision 0 l = 0 := by
  intro l
  induction l with
  | nil => simp [costSpec]
  | cons lvl rest ih =>
    obtain ⟨p, q⟩ := lvl
    simp [costSpec, ih]

theorem lastTouchedPrice_zero : ∀ l : List DepthLevel, lastTouchedPrice 0 l = none := by
  intro l
  cases l with
  | nil => rfl
  | cons lvl rest =>
    obtain ⟨p, q⟩ := lvl
    simp [lastTouchedPrice]

theorem processBook_foldl_spec (precision target : Nat) :
    ∀ (depths : List DepthLevel) (acc : ProcessedBookAmounts), acc.quantityWei ≤ target →
      depths.foldl (processBookStep precision target) acc =
        ⟨acc.quantityWei + (consumedQtys (target - acc.quantityWei) depths).sum,
         acc.priceWei + costSpec precision (target - acc.quantityWei) depths,
         (lastTouchedPrice (target - acc.quantityWei) depths).getD acc.lastPriceWei⟩ := by
  intro depths
  induction depths with
  | nil =>
    intro acc hacc
    simp [consumedQtys, costSpec, lastTouchedPrice]
  | cons lvl rest ih =>
    intro acc hacc
    obtain ⟨p, q⟩ := lvl
    rw [List.foldl_cons]
    by_cases hskip : target ≤ acc.quantityWei
    · have ht : target - acc.quantityWei = 0 := by omega
      have hstep : processBookStep precision target acc (p, q) = acc := by
        unfold processBookStep
        simp [hskip]
      rw [hstep, ih acc hacc, ht]
      simp [consumedQtys, costSpec, lastTouchedPrice, consumedQtys_zero_sum, costSpec_zero,
        lastTouchedPrice_zero]
    · push_neg at hskip
      by_cases hpart : target - acc.quantityWei < q
      · have hstep : processBookStep precision target acc (p, q) =
            ⟨acc.quantityWei + (target - acc.quantityWei),
             acc.priceWei + p * (target - acc.quantityWei) / precision, p⟩ := by
          unfold processBookStep
          simp [show ¬target ≤ acc.quantityWei by omega, hpart]
        rw [hstep]
        rw [ih ⟨acc.quantityWei + (target - acc.quantityWei),
              acc.priceWei + p * (target - acc.quantityWei) / precision, p⟩ (by dsimp only; omega)]
        have hmin : min q (target - acc.quantityWei) = target - acc.quantityWei := by omega
        have hrem : target - (acc.quantityWei + (target - acc.quantityWei)) = 0 := by omega
        simp only [hrem, consumedQtys, costSpec, lastTouchedPrice, hmin, Nat.sub_self,
          consumedQtys_zero_sum, costSpec_zero, lastTouchedPrice_zero, Option.getD_none,
          Option.getD_some, List.sum_cons, show ¬target - acc.quantityWei = 0 by omega, if_false]
        simp only [ProcessedBookAmounts.mk.injEq]
        exact ⟨by omega, by omega, by simp⟩
      · push_neg at hpart
        have hstep : processBookStep precision target acc (p, q) =
            ⟨acc.quantityWei + q, acc.priceWei + p * q / precision, p⟩ := by
          unfold processBookStep
          simp [show ¬target ≤ acc.quantityWei by omega, show ¬target - acc.quantityWei < q by omega]
        rw [hstep]
        rw [ih ⟨acc.quantityWei + q, acc.priceWei + p * q / precision, p⟩ (by dsimp only; omega)]
        have hmin : min q (target - acc.quantityWei) = q := by omega
        have hrem : target - (acc.quantityWei + q) = (target - acc.quantityWei) - q := by omega
        simp only [hrem, consumedQtys, costSpec, lastTouchedPrice, hmin, List.sum_cons,
          show ¬target - acc.quantityWei = 0 by omega, if_false, Option.getD_some]
        simp only [ProcessedBookAmounts.mk.injEq]
        exact ⟨by omega, by omega, by simp⟩

theorem consumedQtys_sum : ∀ (l : List DepthLevel) (target : Nat),
    (consumedQtys target l).sum = min target (l.map (fun x => x.2)).sum := by
  intro l
  induction l with
  | nil => intro target; simp [consumedQtys]
  | cons lvl rest ih =>
    intro target
    obtain ⟨p, q⟩ := lvl
    simp only [consumedQtys, List.sum_cons, List.map_cons, ih]
    omega

theorem processBook_cost_le_last_mul (precision target : Nat) :
    ∀ (depths : List DepthLevel) (acc : ProcessedBookAmounts),
      depths.Pairwise (fun a b => a.1 ≤ b.1) →
      (∀ lvl ∈ depths, acc.lastPriceWei ≤ lvl.1) →
      acc.priceWei ≤ acc.lastPriceWei * acc.quantityWei / precision →
      (depths.foldl (processBookStep precision target) acc).priceWei ≤
        (depths.foldl (processBookStep precision target) acc).lastPriceWei *
          (depths.foldl (processBookStep precision target) acc).quantityWei / precision := by
  intro depths
  induction depths with
  | nil => intro acc _ _ h; simpa using h
  | cons lvl rest ih =>
    intro acc hpw hall hinv
    obtain ⟨p, q⟩ := lvl
    rw [List.foldl_cons]
    have hp : acc.lastPriceWei ≤ p := hall (p, q) (List.mem_cons_self _ _)
    have hrest_pw : rest.Pairwise (fun a b => a.1 ≤ b.1) := (List.pairwise_cons.mp hpw).2
    have hhead : ∀ lvl' ∈ rest, p ≤ lvl'.1 := (List.pairwise_cons.mp hpw).1
    have key : ∀ r : Nat, acc.priceWei + p * r / precision ≤
        p * (acc.quantityWei + r) / precision := by
      intro r
      have s1 : acc.priceWei ≤ p * acc.quantityWei / precision :=
        le_trans hinv (Nat.div_le_div_right (Nat.mul_le_mul_right _ hp))
      calc acc.priceWei + p * r / precision
          ≤ p * acc.quantityWei / precision + p * r / precision :=
            Nat.add_le_add_right s1 _
        _ ≤ (p * acc.quantityWei + p * r) / precision := div_add_div_le _ _ _
        _ = p * (acc.quantityWei + r) / precision := by rw [← Nat.mul_add]
    by_cases hskip : target ≤ acc.quantityWei
    · have hstep : processBookStep precision target acc (p, q) = acc := by
        unfold processBookStep
        simp [hskip]
      rw [hstep]
      exact ih acc hrest_pw (fun l hl => le_trans hp (hhead l hl)) hinv
    · push_neg at hskip
      by_cases hpart : target - acc.quantityWei < q
      · have hstep : processBookStep precision target acc (p, q) =
            ⟨acc.quantityWei + (target - acc.quantityWei),
             acc.priceWei + p * (target - acc.quantityWei) / precision, p⟩ := by
          unfold processBookStep
          simp [show ¬target ≤ acc.quantityWei by omega, hpart]
        rw [hstep]
        exact ih _ hrest_pw (fun l hl => hhead l hl) (key _)
      · push_neg at hpart
        have hstep : processBookStep precision target acc (p, q) =
            ⟨acc.quantityWei + q, acc.priceWei + p * q / precision, p⟩ := by
          unfold processBookStep
          simp [show ¬target ≤ acc.quantityWei by omega, show ¬target - acc.quantityWei < q by omega]
        rw [hstep]
        exact ih _ hrest_pw (fun l hl => hhead l hl) (key _)

theorem valueWalkSharesSpec_zero (precision : Nat) :
    ∀ l : List DepthLevel, valueWalkSharesSpec precision 0 l = 0 := by
  intro l
  cases l with
  | nil => rfl
  | cons lvl rest =>
    obtain ⟨p, q⟩ := lvl
    simp [valueWalkSharesSpec]

theorem valueWalk_foldl_spec (precision valueWei : Nat) :
    ∀ (asks : List DepthLevel) (acc : ValueAcc), acc.totalPrice ≤ valueWei →
      (asks.foldl (valueWalkStep precision valueWei) acc).numberOfShares =
        acc.numberOfShares + valueWalkSharesSpec precision (valueWei - acc.totalPrice) asks := by
  intro asks
  induction asks with
  | nil => intro acc h; simp [valueWalkSharesSpec]
  | cons lvl rest ih =>
    intro acc hacc
    obtain ⟨p, q⟩ := lvl
    rw [List.foldl_cons]
    by_cases hskip : valueWei ≤ acc.totalPrice
    · have hb : valueWei - acc.totalPrice = 0 := by omega
      have hstep : valueWalkStep precision valueWei acc (p, q) = acc := by
        unfold valueWalkStep
        simp [hskip]
      rw [hstep, ih acc hacc, hb]
      simp [valueWalkSharesSpec, valueWalkSharesSpec_zero]
    · push_neg at hskip
      have hb0 : ¬valueWei - acc.totalPrice = 0 := by omega
      by_cases hfull : p * q / precision ≤ valueWei - acc.totalPrice
      · have hstep : valueWalkStep precision valueWei acc (p, q) =
            ⟨acc.numberOfShares + q, acc.totalPrice + p * q / precision⟩ := by
          unfold valueWalkStep
          simp [show ¬valueWei ≤ acc.totalPrice by omega, hfull]
        rw [hstep]
        rw [ih ⟨acc.numberOfShares + q, acc.totalPrice + p * q / precision⟩ (by dsimp only; omega)]
        have hrem : valueWei - (acc.totalPrice + p * q / precision) =
            (valueWei - acc.totalPrice) - p * q / precision := by omega
        simp only [hrem, valueWalkSharesSpec, hb0, if_false, hfull, if_true]
        omega
      · push_neg at hfull
        have hdelta : p * (if 0 < p then (valueWei - acc.totalPrice) * precision / p else 0) /
            precision ≤ valueWei - acc.totalPrice := by
          by_cases hpz : 0 < p
          · simp only [hpz, if_true]
            have h1 : p * ((valueWei - acc.totalPrice) * precision / p) ≤
                (valueWei - acc.totalPrice) * precision := Nat.mul_div_le _ _
            calc p * ((valueWei - acc.totalPrice) * precision / p) / precision
                ≤ (valueWei - acc.totalPrice) * precision / precision :=
                  Nat.div_le_div_right h1
              _ ≤ valueWei - acc.totalPrice := by
                  rcases Nat.eq_zero_or_pos precision with hc | hc
                  · simp [hc]
                  · rw [Nat.mul_div_cancel _ hc]
          · simp [show p = 0 by omega]
        have hstep : valueWalkStep precision valueWei acc (p, q) =
            ⟨acc.numberOfShares + (if 0 < p then (valueWei - acc.totalPrice) * precision / p else 0),
             acc.totalPrice + p * (if 0 < p then (valueWei - acc.totalPrice) * precision / p else 0) /
               precision⟩ := by
          unfold valueWalkStep
          simp [show ¬valueWei ≤ acc.totalPrice by omega, show ¬p * q / precision ≤
            valueWei - acc.totalPrice by omega]
        rw [hstep]
        rw [ih ⟨acc.numberOfShares + (if 0 < p then (valueWei - acc.totalPrice) * precision / p
              else 0),
            acc.totalPrice + p * (if 0 < p then (valueWei - acc.totalPrice) * precision / p else 0) /
              precision⟩ (by dsimp only; omega)]
        have hrem : valueWei - (acc.totalPrice +
            p * (if 0 < p then (valueWei - acc.totalPrice) * precision / p else 0) / precision) =
            (valueWei - acc.totalPrice) -
              p * (if 0 < p then (valueWei - acc.totalPrice) * precision / p else 0) / precision := by
          omega
        simp only [hrem, valueWalkSharesSpec, hb0, if_false,
          show ¬p * q / precision ≤ valueWei - acc.totalPrice by omega, if_true]
        omega

theorem valueWalk_shares_eq_spec (precision valueWei : Nat) (asks : List DepthLevel) :
    (valueWalk precision valueWei asks).numberOfShares =
      valueWalkSharesSpec precision valueWei asks := by
  have h := valueWalk_foldl_spec precision valueWei asks ⟨0, 0⟩ (by simp)
  simpa [valueWalk] using h

theorem getMarketOrderAmountsByQuantity_buy (precision quantityWei : Nat) (book : Book)
    (h : 10 ^ 16 ≤ retainSigNat quantityWei 5) :
    getMarketOrderAmountsByQuantity precision .BUY quantityWei book =
      .ok { pricePerShare :=
              if 0 < (processBook precision book.asks (retainSigNat quantityWei 5)).quantityWei then
                (processBook precision book.asks (retainSigNat quantityWei 5)).priceWei *
                  precision /
                  (processBook precision book.asks (retainSigNat quantityWei 5)).quantityWei
              else 0
            makerAmount :=
              (processBook precision book.asks (retainSigNat quantityWei 5)).lastPriceWei *
                (processBook precision book.asks (retainSigNat quantityWei 5)).quantityWei /
                precision
            takerAmount := (processBook precision book.asks (retainSigNat quantityWei 5)).quantityWei
            lastPrice :=
              (processBook precision book.asks (retainSigNat quantityWei 5)).lastPriceWei } := by
  unfold getMarketOrderAmountsByQuantity
  rw [if_neg (by omega)]

theorem getMarketOrderAmountsByQuantity_sell (precision quantityWei : Nat) (book : Book)
    (h : 10 ^ 16 ≤ retainSigNat quantityWei 5) :
    getMarketOrderAmountsByQuantity precision .SELL quantityWei book =
      .ok { pricePerShare :=
              if 0 < (processBook precision book.bids (retainSigNat quantityWei 5)).quantityWei then
                (processBook precision book.bids (retainSigNat quantityWei 5)).priceWei *
                  precision /
                  (processBook precision book.bids (retainSigNat quantityWei 5)).quantityWei
              else 0
            makerAmount := (processBook precision book.bids (retainSigNat quantityWei 5)).quantityWei
            takerAmount :=
              (processBook precision book.bids (retainSigNat quantityWei 5)).lastPriceWei *
                (processBook precision book.bids (retainSigNat quantityWei 5)).quantityWei /
                precision
            lastPrice :=
              (processBook precision book.bids (retainSigNat quantityWei 5)).lastPriceWei } := by
  unfold getMarketOrderAmountsByQuantity
  rw [if_neg (by omega)]

theorem getMarketOrderAmountsByQuantity_dust (precision : Nat) (side : Side)
    (quantityWei : Nat) (book : Book) (h : retainSigNat quantityWei 5 < 10 ^ 16) :
    getMarketOrderAmountsByQuantity precision side quantityWei book =
      .error .invalidQuantity := by
  unfold getMarketOrderAmountsByQuantity
  rw [if_pos h]

theorem buildOrder_unfold (env : BuilderEnv) (nowMs : Nat) (strategy : OrderStrategy)
    (data : BuildOrderInput) :
    buildOrder env nowMs strategy data =
      if strategy ≠ .MARKET ∧ data.expiresAt.getD FALLBACK_EXPIRES_AT_MS ≤ nowMs then
        .error .invalidExpiration
      else if data.maker.isSome ∧ data.maker ≠ some (data.signer.getD env.signerAddress) then
        .error .makerSignerMismatch
      else
        .ok ({ salt := data.salt.getD env.generatedSalt
               maker := env.predictAccount.getD
                 (data.maker.getD (data.signer.getD env.signerAddress))
               signer := env.predictAccount.getD (data.signer.getD env.signerAddress)
               taker := data.taker.getD ZeroAddress
               tokenId := data.tokenId
               makerAmount := data.makerAmount
               takerAmount := data.takerAmount
               expiration := if strategy = .MARKET then nowMs / 1000 + FIVE_MINUTES_SECONDS
                 else data.expiresAt.getD FALLBACK_EXPIRES_AT_MS / 1000
               nonce := data.nonce.getD 0
               feeRateBps := data.feeRateBps
               side := data.side
               signatureType := data.signatureType.getD .EOA },
             (if env.predictAccount.isSome ∧ (data.maker.isSome ∨ data.signer.isSome) then
                [Advisory.predictAccountOverride] else []) ++
             (if strategy = .MARKET ∧ data.expiresAt.isSome then
                [Advisory.marketExpirationIgnored] else [])) := rfl

/-! ### Claim theorems -/

/-- C6: for every `digits ≥ 1` and every big integer `v`,
`retainSignificantDigits(v, digits)` is total and pure, returns `0` exactly
when `v = 0`, otherwise has the same sign as `v`, satisfies `|result| ≤ |v|`,
truncates symmetrically for negative inputs, and on the test vectors maps
`123456 ↦ 123000`, `-123456 ↦ -123000` and `12 ↦ 12` at 3 significant
digits. -/
theorem claim_C6_retain_significant_digits :
    (∀ (digits : Nat) (v : Int), 1 ≤ digits →
      (retainSignificantDigits v digits = 0 ↔ v = 0) ∧
      (0 < v → 0 < retainSignificantDigits v digits) ∧
      (v < 0 → retainSignificantDigits v digits < 0) ∧
      (retainSignificantDigits v digits).natAbs ≤ v.natAbs ∧
      retainSignificantDigits (-v) digits = -retainSignificantDigits v digits) ∧
    retainSignificantDigits 123456 3 = 123000 ∧
    retainSignificantDigits (-123456) 3 = -123000 ∧
    retainSignificantDigits 12 3 = 12 := by
  refine ⟨?_, by decide, by decide, by decide⟩
  intro digits v hd
  have hle := retainSigNat_le v.natAbs digits
  rcases lt_trichotomy v 0 with hv | hv | hv
  · have hn1 : 1 ≤ v.natAbs := by omega
    have hr1 := retainSigNat_pos hd hn1
    have hveq : retainSignificantDigits v digits = -(retainSigNat v.natAbs digits : Int) := by
      unfold retainSignificantDigits
      rw [if_pos hv]
    have hmeq : retainSignificantDigits (-v) digits = (retainSigNat v.natAbs digits : Int) := by
      unfold retainSignificantDigits
      rw [if_neg (by omega), Int.natAbs_neg]
    refine ⟨?_, ?_, ?_, ?_, ?_⟩
    · rw [hveq]
      omega
    · intro h
      omega
    · intro h
      rw [hveq]
      omega
    · rw [hveq, Int.natAbs_neg, Int.natAbs_ofNat]
      exact hle
    · rw [hveq, hmeq]
      omega
  · subst hv
    refine ⟨?_, ?_, ?_, ?_, ?_⟩ <;> simp [retainSignificantDigits, retainSigNat]
  · have hn1 : 1 ≤ v.natAbs := by omega
    have hr1 := retainSigNat_pos hd hn1
    have hveq : retainSignificantDigits v digits = (retainSigNat v.natAbs digits : Int) := by
      unfold retainSignificantDigits
      rw [if_neg (by omega)]
    have hmeq : retainSignificantDigits (-v) digits = -(retainSigNat v.natAbs digits : Int) := by
      unfold retainSignificantDigits
      rw [if_pos (by omega), Int.natAbs_neg]
    refine ⟨?_, ?_, ?_, ?_, ?_⟩
    · rw [hveq]
      omega
    · intro h
      rw [hveq]
      omega
    · intro h
      omega
    · rw [hveq, Int.natAbs_ofNat]
      exact hle
    · rw [hveq, hmeq]

/-- Witness for C6 at `digits = 3`, `v = -123456`. -/
theorem claim_C6_witness :
    (1 ≤ 3) ∧
    ((retainSignificantDigits (-123456) 3 = 0 ↔ (-123456 : Int) = 0) ∧
      ((0 : Int) < -123456 → 0 < retainSignificantDigits (-123456) 3) ∧
      ((-123456 : Int) < 0 → retainSignificantDigits (-123456) 3 < 0) ∧
      (retainSignificantDigits (-123456) 3).natAbs ≤ (-123456 : Int).natAbs ∧
      retainSignificantDigits (-(-123456)) 3 = -retainSignificantDigits (-123456) 3) :=
  ⟨by norm_num, claim_C6_retain_significant_digits.1 3 (-123456) (by norm_num)⟩

/-- C5: every quantity below the `1e16` dust threshold makes both
`getLimitOrderAmounts` and `getMarketOrderAmounts` fail with
`InvalidQuantity`; on the market path the check is applied to the quantity
truncated to 5 significant digits, which never exceeds the raw quantity. -/
theorem claim_C5_dust_threshold :
    ∀ (precision q : Nat), q < 10 ^ 16 →
      (∀ (side : Side) (priceWei : Nat),
        getLimitOrderAmounts precision side priceWei q = .error .invalidQuantity) ∧
      (∀ (side : Side) (book : Book),
        getMarketOrderAmounts precision (.byQuantity side q) book = .error .invalidQuantity) ∧
      retainSigNat q 5 ≤ q := by
  intro precision q hq
  refine ⟨?_, ?_, retainSigNat_le q 5⟩
  · intro side priceWei
    unfold getLimitOrderAmounts
    rw [if_pos hq]
  · intro side book
    exact getMarketOrderAmountsByQuantity_dust precision side q book
      (lt_of_le_of_lt (retainSigNat_le q 5) hq)

/-- Witness for C5 at `q = 1e15`. -/
theorem claim_C5_witness :
    ((10 ^ 15 : Nat) < 10 ^ 16) ∧
    getLimitOrderAmounts (10 ^ 18) .BUY (10 ^ 18) (10 ^ 15) = .error .invalidQuantity ∧
    getMarketOrderAmounts (10 ^ 18) (.byQuantity .SELL (10 ^ 15)) ⟨[], []⟩ =
      .error .invalidQuantity :=
  ⟨by norm_num,
   (claim_C5_dust_threshold (10 ^ 18) (10 ^ 15) (by norm_num)).1 .BUY (10 ^ 18),
   (claim_C5_dust_threshold (10 ^ 18) (10 ^ 15) (by norm_num)).2.1 .SELL ⟨[], []⟩⟩

/-- C3: for every LIMIT input at or above the dust minimum,
`getLimitOrderAmounts` truncates the price to 3 and the quantity to 5
significant digits and returns the side-dependent amounts, echoing the
truncated price as `pricePerShare`; at `price = 2e18`, `quantity = 5e18` a
BUY yields `(2e18, 10e18, 5e18)` and a SELL swaps maker and taker. -/
theorem claim_C3_limit_amounts :
    (∀ (precision : Nat) (side : Side) (priceWei q : Nat), 10 ^ 16 ≤ q →
      getLimitOrderAmounts precision side priceWei q =
        .ok (match side with
          | .BUY =>
            { pricePerShare := retainSigNat priceWei 3
              makerAmount := retainSigNat priceWei 3 * retainSigNat q 5 / precision
              takerAmount := retainSigNat q 5
              lastPrice := retainSigNat priceWei 3 }
          | .SELL =>
            { pricePerShare := retainSigNat priceWei 3
              makerAmount := retainSigNat q 5
              takerAmount := retainSigNat priceWei 3 * retainSigNat q 5 / precision
              lastPrice := retainSigNat priceWei 3 })) ∧
    getLimitOrderAmounts (10 ^ 18) .BUY (2 * 10 ^ 18) (5 * 10 ^ 18) =
      .ok ⟨2 * 10 ^ 18, 10 * 10 ^ 18, 5 * 10 ^ 18, 2 * 10 ^ 18⟩ ∧
    getLimitOrderAmounts (10 ^ 18) .SELL (2 * 10 ^ 18) (5 * 10 ^ 18) =
      .ok ⟨2 * 10 ^ 18, 5 * 10 ^ 18, 10 * 10 ^ 18, 2 * 10 ^ 18⟩ := by
  refine ⟨?_, by decide, by decide⟩
  intro precision side priceWei q hq
  unfold getLimitOrderAmounts
  rw [if_neg (by omega)]
  cases side <;> rfl

/-- Witness for C3 at the BUY example input. -/
theorem claim_C3_witness :
    ((10 ^ 16 : Nat) ≤ 5 * 10 ^ 18) ∧
    getLimitOrderAmounts (10 ^ 18) .BUY (2 * 10 ^ 18) (5 * 10 ^ 18) =
      .ok { pricePerShare := retainSigNat (2 * 10 ^ 18) 3
            makerAmount := retainSigNat (2 * 10 ^ 18) 3 * retainSigNat (5 * 10 ^ 18) 5 / 10 ^ 18
            takerAmount := retainSigNat (5 * 10 ^ 18) 5
            lastPrice := retainSigNat (2 * 10 ^ 18) 3 } :=
  ⟨by norm_num,
   claim_C3_limit_amounts.1 (10 ^ 18) .BUY (2 * 10 ^ 18) (5 * 10 ^ 18) (by norm_num)⟩

/-- C1: for every MARKET order by share quantity at or above the dust minimum
after truncation, `getMarketOrderAmounts` walks asks for BUY and bids for
SELL via `processBook` and returns `pricePerShare = totalCost * precision /
filledQuantity` (0 on a zero fill, so an empty or exhausted book never
divides by zero); BUY returns `makerAmount = lastPrice * filledQuantity /
precision` and `takerAmount = filledQuantity`, SELL swaps them; a BUY of
`5e18` shares against asks `[(0.5, 3), (0.88, 4)]` yields
`pricePerShare = 0.652e18`, `makerAmount = 0.88 * 5e18`,
`takerAmount = 5e18`. -/
theorem claim_C1_market_by_quantity :
    (∀ (precision q : Nat) (book : Book), 10 ^ 16 ≤ retainSigNat q 5 →
      (getMarketOrderAmounts precision (.byQuantity .BUY q) book =
        .ok { pricePerShare :=
                if 0 < (processBook precision book.asks (retainSigNat q 5)).quantityWei then
                  (processBook precision book.asks (retainSigNat q 5)).priceWei * precision /
                    (processBook precision book.asks (retainSigNat q 5)).quantityWei
                else 0
              makerAmount := (processBook precision book.asks (retainSigNat q 5)).lastPriceWei *
                (processBook precision book.asks (retainSigNat q 5)).quantityWei / precision
              takerAmount := (processBook precision book.asks (retainSigNat q 5)).quantityWei
              lastPrice := (processBook precision book.asks (retainSigNat q 5)).lastPriceWei }) ∧
      (getMarketOrderAmounts precision (.byQuantity .SELL q) book =
        .ok { pricePerShare :=
                if 0 < (processBook precision book.bids (retainSigNat q 5)).quantityWei then
                  (processBook precision book.bids (retainSigNat q 5)).priceWei * precision /
                    (processBook precision book.bids (retainSigNat q 5)).quantityWei
                else 0
              makerAmount := (processBook precision book.bids (retainSigNat q 5)).quantityWei
              takerAmount := (processBook precision book.bids (retainSigNat q 5)).lastPriceWei *
                (processBook precision book.bids (retainSigNat q 5)).quantityWei / precision
              lastPrice := (processBook precision book.bids (retainSigNat q 5)).lastPriceWei })) ∧
    getMarketOrderAmounts (10 ^ 18) (.byQuantity .BUY (5 * 10 ^ 18))
        ⟨[(5 * 10 ^ 17, 3 * 10 ^ 18), (88 * 10 ^ 16, 4 * 10 ^ 18)], []⟩ =
      .ok ⟨652 * 10 ^ 15, 44 * 10 ^ 17, 5 * 10 ^ 18, 88 * 10 ^ 16⟩ := by
  refine ⟨?_, by decide⟩
  intro precision q book h
  exact ⟨getMarketOrderAmountsByQuantity_buy precision q book h,
    getMarketOrderAmountsByQuantity_sell precision q book h⟩

/-- Witness for C1 at the example book, instantiating the SELL branch on the
mirrored book and evaluating the BUY branch to the claimed numbers. -/
theorem claim_C1_witness :
    ((10 ^ 16 : Nat) ≤ retainSigNat (5 * 10 ^ 18) 5) ∧
    getMarketOrderAmounts (10 ^ 18) (.byQuantity .BUY (5 * 10 ^ 18))
        ⟨[(5 * 10 ^ 17, 3 * 10 ^ 18), (88 * 10 ^ 16, 4 * 10 ^ 18)], []⟩ =
      .ok ⟨652 * 10 ^ 15, 44 * 10 ^ 17, 5 * 10 ^ 18, 88 * 10 ^ 16⟩ :=
  ⟨by decide,
   ((claim_C1_market_by_quantity.1 (10 ^ 18) (5 * 10 ^ 18)
      ⟨[(5 * 10 ^ 17, 3 * 10 ^ 18), (88 * 10 ^ 16, 4 * 10 ^ 18)], []⟩ (by decide)).1).trans
     (by decide)⟩

/-- C4 counterexample: the level `(7, 0)` (price 7 wei, quantity 0) walked
with target 5 contributes no fill at all (`consumedQtys` is `[0]` and the
filled quantity is 0), yet `processBook` reports `lastPrice = 7`, while the
claim requires the last price of a walk in which no level contributed any
fill to be the empty-book value 0. -/
theorem claim_C4_counterexample :
    (processBook (10 ^ 18) [(7, 0)] 5).quantityWei = 0 ∧
    consumedQtys 5 [(7, 0)] = [0] ∧
    (processBook (10 ^ 18) [(7, 0)] 5).lastPriceWei = 7 := by
  decide

/-- C4 (amended): `processBook` returns `filledQuantity = min(target, sum of
scaled level quantities)` and `totalCost = Σ price * consumedQty / precision`
per level; `lastPrice` is the price of the last level processed while unmet
demand remained — this is the last level that contributed any fill whenever
all touched levels have positive quantity, but a zero-quantity level touched
while demand remains also updates it; an empty book yields `(0, 0, 0)` and an
insufficient book yields a silent partial fill, never an error. -/
theorem claim_C4_process_book :
    ∀ (precision : Nat) (depths : List DepthLevel) (targetQuantity : Nat),
      (processBook precision depths targetQuantity).quantityWei =
        min targetQuantity (depths.map (fun lvl => lvl.2)).sum ∧
      (processBook precision depths targetQuantity).priceWei =
        costSpec precision targetQuantity depths ∧
      (processBook precision depths targetQuantity).lastPriceWei =
        (lastTouchedPrice targetQuantity depths).getD 0 ∧
      processBook precision [] targetQuantity = ⟨0, 0, 0⟩ := by
  intro precision depths targetQuantity
  have h := processBook_foldl_spec precision targetQuantity depths ⟨0, 0, 0⟩ (Nat.zero_le _)
  have h' : processBook precision depths targetQuantity =
      ⟨(consumedQtys targetQuantity depths).sum, costSpec precision targetQuantity depths,
       (lastTouchedPrice targetQuantity depths).getD 0⟩ := by
    unfold processBook
    simpa using h
  refine ⟨?_, ?_, ?_, rfl⟩
  · rw [h']
    exact consumedQtys_sum depths targetQuantity
  · rw [h']
  · rw [h']

/-- C8: for every MARKET BUY by quantity whose asks are sorted ascending by
price, the returned `makerAmount` (collateral at the worst touched price) is
at least the `totalCost` accumulated by `processBook` over the walked
levels. -/
theorem claim_C8_buy_collateral_bound :
    ∀ (precision q : Nat) (book : Book),
      book.asks.Pairwise (fun a b => a.1 ≤ b.1) →
      10 ^ 16 ≤ retainSigNat q 5 →
      ∃ amounts : OrderAmounts,
        getMarketOrderAmounts precision (.byQuantity .BUY q) book = .ok amounts ∧
        (processBook precision book.asks (retainSigNat q 5)).priceWei ≤
          amounts.makerAmount := by
  intro precision q book hsort hdust
  refine ⟨_, getMarketOrderAmountsByQuantity_buy precision q book hdust, ?_⟩
  have h := processBook_cost_le_last_mul precision (retainSigNat q 5) book.asks ⟨0, 0, 0⟩
    hsort (fun lvl _ => Nat.zero_le _) (by simp)
  unfold processBook
  exact h

/-- Witness for C8 at the example book. -/
theorem claim_C8_witness :
    (([(5 * 10 ^ 17, 3 * 10 ^ 18), (88 * 10 ^ 16, 4 * 10 ^ 18)] :
        List DepthLevel).Pairwise (fun a b => a.1 ≤ b.1)) ∧
    ((10 ^ 16 : Nat) ≤ retainSigNat (5 * 10 ^ 18) 5) ∧
    (∃ amounts : OrderAmounts,
      getMarketOrderAmounts (10 ^ 18) (.byQuantity .BUY (5 * 10 ^ 18))
          ⟨[(5 * 10 ^ 17, 3 * 10 ^ 18), (88 * 10 ^ 16, 4 * 10 ^ 18)], []⟩ = .ok amounts ∧
      (processBook (10 ^ 18)
          [(5 * 10 ^ 17, 3 * 10 ^ 18), (88 * 10 ^ 16, 4 * 10 ^ 18)]
          (retainSigNat (5 * 10 ^ 18) 5)).priceWei ≤ amounts.makerAmount) :=
  ⟨by decide, by decide,
   claim_C8_buy_collateral_bound (10 ^ 18) (5 * 10 ^ 18)
     ⟨[(5 * 10 ^ 17, 3 * 10 ^ 18), (88 * 10 ^ 16, 4 * 10 ^ 18)], []⟩ (by decide) (by decide)⟩

/-- C2: a MARKET BUY by currency value below `1e18` fails with
`InvalidQuantity`; otherwise the value walk consumes each full tier whose
total cost fits the remaining budget and `remainingBudget * precision / price`
fractional shares at a tier that exceeds it (the recursive spec description
equals the implemented fold), the accumulated share count is truncated to 5
significant digits and fed back through the by-quantity path, and the result
has `takerAmount = roundedShares` and
`makerAmount = lastPrice * roundedShares / precision`; a value of `1e18`
against asks `[(0.5, 3), (0.88, 4)]` yields `makerAmount = 1e18`,
`pricePerShare = 0.5e18`, `takerAmount = 2e18`. -/
theorem claim_C2_market_by_value :
    (∀ (precision valueWei : Nat) (book : Book), valueWei < 10 ^ 18 →
      getMarketOrderAmounts precision (.byValue valueWei) book = .error .invalidQuantity) ∧
    (∀ (precision valueWei : Nat) (asks : List DepthLevel),
      (valueWalk precision valueWei asks).numberOfShares =
        valueWalkSharesSpec precision valueWei asks) ∧
    (∀ (precision valueWei : Nat) (book : Book), 10 ^ 18 ≤ valueWei →
      10 ^ 16 ≤ retainSigNat (valueWalk precision valueWei book.asks).numberOfShares 5 →
      ∃ amounts : OrderAmounts,
        getMarketOrderAmountsByQuantity precision .BUY
            (retainSigNat (valueWalk precision valueWei book.asks).numberOfShares 5) book =
          .ok amounts ∧
        getMarketOrderAmounts precision (.byValue valueWei) book =
          .ok { pricePerShare := amounts.pricePerShare
                makerAmount := amounts.lastPrice *
                  retainSigNat (valueWalk precision valueWei book.asks).numberOfShares 5 /
                  precision
                takerAmount :=
                  retainSigNat (valueWalk precision valueWei book.asks).numberOfShares 5
                lastPrice := amounts.lastPrice }) ∧
    getMarketOrderAmounts (10 ^ 18) (.byValue (10 ^ 18))
        ⟨[(5 * 10 ^ 17, 3 * 10 ^ 18), (88 * 10 ^ 16, 4 * 10 ^ 18)], []⟩ =
      .ok ⟨5 * 10 ^ 17, 10 ^ 18, 2 * 10 ^ 18, 5 * 10 ^ 17⟩ := by
  refine ⟨?_, ?_, ?_, by decide⟩
  · intro precision valueWei book hv
    show getMarketOrderAmountsByValue precision valueWei book = _
    unfold getMarketOrderAmountsByValue
    rw [if_pos hv]
  · exact fun precision valueWei asks => valueWalk_shares_eq_spec precision valueWei asks
  · intro precision valueWei book hv hdust
    have hidem :
        retainSigNat (retainSigNat (valueWalk precision valueWei book.asks).numberOfShares 5) 5 =
          retainSigNat (valueWalk precision valueWei book.asks).numberOfShares 5 :=
      retainSigNat_idem _ 5 (by norm_num)
    have hok := getMarketOrderAmountsByQuantity_buy precision
      (retainSigNat (valueWalk precision valueWei book.asks).numberOfShares 5) book
      (by rw [hidem]; exact hdust)
    refine ⟨_, hok, ?_⟩
    show getMarketOrderAmountsByValue precision valueWei book = _
    unfold getMarketOrderAmountsByValue
    rw [if_neg (by omega)]
    show (getMarketOrderAmountsByQuantity precision .BUY
        (retainSigNat (valueWalk precision valueWei book.asks).numberOfShares 5) book).map _ = _
    rw [hok]
    rfl

/-- Witness for C2 at the example inputs. -/
theorem claim_C2_witness :
    ((10 ^ 18 : Nat) ≤ 10 ^ 18) ∧
    ((10 ^ 16 : Nat) ≤ retainSigNat
      (valueWalk (10 ^ 18) (10 ^ 18)
        (⟨[(5 * 10 ^ 17, 3 * 10 ^ 18), (88 * 10 ^ 16, 4 * 10 ^ 18)], []⟩ :
          Book).asks).numberOfShares 5) ∧
    (∃ amounts : OrderAmounts,
      getMarketOrderAmountsByQuantity (10 ^ 18) .BUY
          (retainSigNat (valueWalk (10 ^ 18) (10 ^ 18)
            (⟨[(5 * 10 ^ 17, 3 * 10 ^ 18), (88 * 10 ^ 16, 4 * 10 ^ 18)], []⟩ :
              Book).asks).numberOfShares 5)
          ⟨[(5 * 10 ^ 17, 3 * 10 ^ 18), (88 * 10 ^ 16, 4 * 10 ^ 18)], []⟩ = .ok amounts ∧
      getMarketOrderAmounts (10 ^ 18) (.byValue (10 ^ 18))
          ⟨[(5 * 10 ^ 17, 3 * 10 ^ 18), (88 * 10 ^ 16, 4 * 10 ^ 18)], []⟩ =
        .ok { pricePerShare := amounts.pricePerShare
              makerAmount := amounts.lastPrice *
                retainSigNat (valueWalk (10 ^ 18) (10 ^ 18)
                  (⟨[(5 * 10 ^ 17, 3 * 10 ^ 18), (88 * 10 ^ 16, 4 * 10 ^ 18)], []⟩ :
                    Book).asks).numberOfShares 5 / 10 ^ 18
              takerAmount := retainSigNat (valueWalk (10 ^ 18) (10 ^ 18)
                (⟨[(5 * 10 ^ 17, 3 * 10 ^ 18), (88 * 10 ^ 16, 4 * 10 ^ 18)], []⟩ :
                  Book).asks).numberOfShares 5
              lastPrice := amounts.lastPrice }) :=
  ⟨le_rfl, by decide,
   claim_C2_market_by_value.2.2.1 (10 ^ 18) (10 ^ 18)
     ⟨[(5 * 10 ^ 17, 3 * 10 ^ 18), (88 * 10 ^ 16, 4 * 10 ^ 18)], []⟩ le_rfl (by decide)⟩

/-- C7: `buildOrder` with strategy LIMIT fails with `InvalidExpiration`
exactly when the supplied `expiresAt` is not strictly in the future at
assembly time, defaults a missing `expiresAt` to the far-future sentinel,
and with strategy MARKET never raises `InvalidExpiration`, sets the
expiration to assembly time plus five minutes (so within `[now, now+5min]`),
ignores any supplied `expiresAt` for the built order, and emits only a
non-fatal advisory when one was supplied. -/
theorem claim_C7_expiration :
    (∀ (env : BuilderEnv) (nowMs : Nat) (data : BuildOrderInput) (t : Nat),
      data.expiresAt = some t →
      (buildOrder env nowMs .LIMIT data = .error .invalidExpiration ↔ t ≤ nowMs)) ∧
    (∀ (env : BuilderEnv) (nowMs : Nat) (data : BuildOrderInput) (o : Order)
        (adv : List Advisory), data.expiresAt = none →
      buildOrder env nowMs .LIMIT data = .ok (o, adv) →
      o.expiration = FALLBACK_EXPIRES_AT_MS / 1000) ∧
    (∀ (env : BuilderEnv) (nowMs : Nat) (data : BuildOrderInput),
      buildOrder env nowMs .MARKET data ≠ .error .invalidExpiration ∧
      (∀ (o : Order) (adv : List Advisory),
        buildOrder env nowMs .MARKET data = .ok (o, adv) →
        o.expiration = nowMs / 1000 + FIVE_MINUTES_SECONDS ∧
        nowMs / 1000 ≤ o.expiration ∧
        o.expiration ≤ nowMs / 1000 + FIVE_MINUTES_SECONDS) ∧
      (∀ t : Nat,
        (buildOrder env nowMs .MARKET { data with expiresAt := some t }).map Prod.fst =
          (buildOrder env nowMs .MARKET { data with expiresAt := none }).map Prod.fst) ∧
      (data.expiresAt.isSome = true →
        ∀ (o : Order) (adv : List Advisory),
          buildOrder env nowMs .MARKET data = .ok (o, adv) →
          Advisory.marketExpirationIgnored ∈ adv)) := by
  refine ⟨?_, ?_, ?_⟩
  · intro env nowMs data t ht
    rw [buildOrder_unfold, ht]
    simp only [Option.getD_some]
    by_cases hle : t ≤ nowMs
    · rw [if_pos ⟨by decide, hle⟩]
      simp [hle]
    · rw [if_neg (fun hc => hle hc.2)]
      constructor
      · intro h
        split at h
        · exact absurd h (by simp)
        · exact absurd h (by simp)
      · intro h
        exact absurd h hle
  · intro env nowMs data o adv hnone hok
    rw [buildOrder_unfold, hnone] at hok
    simp only [Option.getD_none] at hok
    split at hok
    · exact absurd hok (by simp)
    · split at hok
      · exact absurd hok (by simp)
      · simp only [Except.ok.injEq, Prod.mk.injEq] at hok
        obtain ⟨ho, _⟩ := hok
        rw [← ho]
        simp
  · intro env nowMs data
    refine ⟨?_, ?_, ?_, ?_⟩
    · rw [buildOrder_unfold]
      rw [if_neg (fun hc => hc.1 rfl)]
      split
      · simp
      · simp
    · intro o adv hok
      rw [buildOrder_unfold] at hok
      rw [if_neg (fun hc => hc.1 rfl)] at hok
      split at hok
      · exact absurd hok (by simp)
      · simp only [Except.ok.injEq, Prod.mk.injEq] at hok
        obtain ⟨ho, _⟩ := hok
        rw [← ho]
        refine ⟨by simp, by simp, by simp⟩
    · intro t
      rw [buildOrder_unfold, buildOrder_unfold]
      by_cases hm : data.maker.isSome ∧ data.maker ≠ some (data.signer.getD env.signerAddress)
      · simp [hm, Except.map]
      · simp [hm, Except.map]
    · intro hsome o adv hok
      rw [buildOrder_unfold] at hok
      rw [if_neg (fun hc => hc.1 rfl)] at hok
      split at hok
      · exact absurd hok (by simp)
      · simp only [Except.ok.injEq, Prod.mk.injEq] at hok
        obtain ⟨_, hadv⟩ := hok
        rw [← hadv]
        simp [hsome]

/-- Witness for C7 at a LIMIT order whose `expiresAt` lies in the past. -/
theorem claim_C7_witness :
    ((⟨Side.BUY, none, none, none, 0, 0, 0, 0, none, none, none, some 5⟩ :
        BuildOrderInput).expiresAt = some 5) ∧
    (buildOrder ⟨none, "S", 0⟩ 10 .LIMIT
        ⟨Side.BUY, none, none, none, 0, 0, 0, 0, none, none, none, some 5⟩ =
      .error .invalidExpiration ↔ 5 ≤ 10) :=
  ⟨rfl, claim_C7_expiration.1 ⟨none, "S", 0⟩ 10
    ⟨Side.BUY, none, none, none, 0, 0, 0, 0, none, none, none, some 5⟩ 5 rfl⟩

/-- C9 counterexample: with an abstracted account configured, a caller that
supplies a maker (`"A"`) different from the supplied signer (`"B"`) makes
`buildOrder` fail with `MakerSignerMismatch` — the claim says conflicting
caller values only produce a non-fatal advisory and never a failure. -/
theorem claim_C9_counterexample :
    buildOrder ⟨some "P", "S", 0⟩ 0 .LIMIT
        ⟨Side.BUY, some "B", some "A", none, 1, 1, 1, 0, none, none, none, none⟩ =
      .error .makerSignerMismatch := by
  decide

/-- C9 (amended): when an abstracted account `p` is configured, `buildOrder`
forces both maker and signer of the returned order to `p` regardless of the
caller's values and emits only a non-fatal advisory when the caller passed a
maker or signer — provided the supplied maker (if any) equals the resolved
signer; an explicit maker that differs from the resolved signer still fails
with `MakerSignerMismatch` (the consistency check runs before the
abstracted-account override), and no other failure than `InvalidExpiration`
is possible. -/
theorem claim_C9_predict_account_override :
    ∀ (env : BuilderEnv) (p : Address) (nowMs : Nat) (strategy : OrderStrategy)
        (data : BuildOrderInput),
      env.predictAccount = some p →
      (data.maker = none ∨ data.maker = some (data.signer.getD env.signerAddress)) →
      (∀ e : OrderError, buildOrder env nowMs strategy data = .error e →
        e = .invalidExpiration) ∧
      (∀ (o : Order) (adv : List Advisory),
        buildOrder env nowMs strategy data = .ok (o, adv) →
        o.maker = p ∧ o.signer = p ∧
        ((data.maker.isSome ∨ data.signer.isSome) →
          Advisory.predictAccountOverride ∈ adv)) := by
  intro env p nowMs strategy data hp hcons
  have hcond2 : ¬(data.maker.isSome ∧ data.maker ≠ some (data.signer.getD env.signerAddress)) := by
    rcases hcons with h | h
    · intro hc
      rw [h] at hc
      exact absurd hc.1 (by simp)
    · intro hc
      exact hc.2 h
  constructor
  · intro e he
    rw [buildOrder_unfold] at he
    by_cases h1 : strategy ≠ .MARKET ∧ data.expiresAt.getD FALLBACK_EXPIRES_AT_MS ≤ nowMs
    · rw [if_pos h1] at he
      simp only [Except.error.injEq] at he
      exact he.symm
    · rw [if_neg h1, if_neg hcond2] at he
      exact absurd he (by simp)
  · intro o adv hok
    rw [buildOrder_unfold] at hok
    by_cases h1 : strategy ≠ .MARKET ∧ data.expiresAt.getD FALLBACK_EXPIRES_AT_MS ≤ nowMs
    · rw [if_pos h1] at hok
      exact absurd hok (by simp)
    · rw [if_neg h1, if_neg hcond2] at hok
      simp only [Except.ok.injEq, Prod.mk.injEq] at hok
      obtain ⟨ho, hadv⟩ := hok
      refine ⟨?_, ?_, ?_⟩
      · rw [← ho]
        simp [hp]
      · rw [← ho]
        simp [hp]
      · intro hms
        rw [← hadv]
        have hps : env.predictAccount.isSome := by rw [hp]; rfl
        simp [hps, hms]

/-- Witness for C9 (amended) with only a signer supplied. -/
theorem claim_C9_witness :
    ((⟨some "P", "S", 0⟩ : BuilderEnv).predictAccount = some "P") ∧
    (((⟨Side.BUY, some "B", none, none, 1, 1, 1, 0, none, none, none, none⟩ :
        BuildOrderInput).maker = none) ∨
      ((⟨Side.BUY, some "B", none, none, 1, 1, 1, 0, none, none, none, none⟩ :
        BuildOrderInput).maker = some ((⟨Side.BUY, some "B", none, none, 1, 1, 1, 0, none,
          none, none, none⟩ : BuildOrderInput).signer.getD
            (⟨some "P", "S", 0⟩ : BuilderEnv).signerAddress))) ∧
    ((∀ e : OrderError, buildOrder ⟨some "P", "S", 0⟩ 0 .LIMIT
        ⟨Side.BUY, some "B", none, none, 1, 1, 1, 0, none, none, none, none⟩ = .error e →
        e = .invalidExpiration) ∧
      (∀ (o : Order) (adv : List Advisory),
        buildOrder ⟨some "P", "S", 0⟩ 0 .LIMIT
            ⟨Side.BUY, some "B", none, none, 1, 1, 1, 0, none, none, none, none⟩ =
          .ok (o, adv) →
        o.maker = "P" ∧ o.signer = "P" ∧
        (((⟨Side.BUY, some "B", none, none, 1, 1, 1, 0, none, none, none, none⟩ :
            BuildOrderInput).maker.isSome ∨
          (⟨Side.BUY, some "B", none, none, 1, 1, 1, 0, none, none, none, none⟩ :
            BuildOrderInput).signer.isSome) →
          Advisory.predictAccountOverride ∈ adv))) :=
  ⟨rfl, Or.inl rfl,
   claim_C9_predict_account_override ⟨some "P", "S", 0⟩ "P" 0 .LIMIT
     ⟨Side.BUY, some "B", none, none, 1, 1, 1, 0, none, none, none, none⟩ rfl (Or.inl rfl)⟩

/-- C10 counterexample: the binary64 value `r = (2^53 - 1) / 2^53` lies in
`[0, 1)` (and is exactly representable), yet
`Math.round(r * 2147483648)` is `2^31` itself, outside `[0, 2^31)`:
rounding half-up carries `2147483647.9999...` to `2147483648`. -/
theorem claim_C10_counterexample :
    ((2 ^ 53 - 1 : Nat) < 2 ^ 53) ∧
    generateOrderSalt (2 ^ 53 - 1) (2 ^ 53) = 2 ^ 31 ∧
    ¬generateOrderSalt (2 ^ 53 - 1) (2 ^ 53) < 2 ^ 31 := by
  decide

/-- C10 (amended): for every exact rational `r = num / den` in `[0, 1)`
produced by the random source, the default salt generator returns a salt in
the closed range `[0, 2^31]`; the endpoint `2^31 = MAX_SALT` is attained
exactly when `r ≥ 1 - 2^{-32}`, i.e. when `den * (2 * MAX_SALT - 1) ≤
2 * num * MAX_SALT`, and for all smaller `r` the salt lies in `[0, 2^31)`. -/
theorem claim_C10_salt_range :
    ∀ num den : Nat, 0 < den → num < den →
      generateOrderSalt num den ≤ MAX_SALT ∧
      (generateOrderSalt num den = MAX_SALT ↔
        den * (2 * MAX_SALT - 1) ≤ 2 * (num * MAX_SALT)) := by
  intro num den hden hnum
  have hM : MAX_SALT = 2147483648 := rfl
  simp only [generateOrderSalt, hM]
  have h2d : 0 < 2 * den := by omega
  have hub : (2 * (num * 2147483648) + den) / (2 * den) ≤ 2147483648 := by
    have hlt := (Nat.div_lt_iff_lt_mul h2d).mpr
      (show 2 * (num * 2147483648) + den < 2147483649 * (2 * den) by omega)
    omega
  refine ⟨hub, ?_, ?_⟩
  · intro h
    have h1 : 2147483648 * (2 * den) ≤ 2 * (num * 2147483648) + den := by
      calc 2147483648 * (2 * den)
          = (2 * (num * 2147483648) + den) / (2 * den) * (2 * den) := by rw [h]
        _ ≤ 2 * (num * 2147483648) + den := Nat.div_mul_le_self _ _
    omega
  · intro h
    have hge : 2147483648 ≤ (2 * (num * 2147483648) + den) / (2 * den) := by
      rw [Nat.le_div_iff_mul_le h2d]
      omega
    omega

/-- Witness for C10 (amended) at `r = 0 / 1`. -/
theorem claim_C10_witness :
    (0 < 1) ∧ ((0 : Nat) < 1) ∧
    generateOrderSalt 0 1 ≤ MAX_SALT ∧
    (generateOrderSalt 0 1 = MAX_SALT ↔ 1 * (2 * MAX_SALT - 1) ≤ 2 * (0 * MAX_SALT)) :=
  ⟨Nat.one_pos, Nat.one_pos, (claim_C10_salt_range 0 1 Nat.one_pos Nat.one_pos).1,
   (claim_C10_salt_range 0 1 Nat.one_pos Nat.one_pos).2⟩

end PredictSdk
